import Mathlib

/-!
Shallow embedding of the markdown→Notion block converter
(`markdown-to-blocks`, the repository's structured-document converter)
and of the batching loop of the Notion client (`notion.ts`,
`appendBlocksInBatches`).

The AST types mirror the mdast node kinds the source discriminates on;
the converter functions are translated branch by branch from the source.
Parsing (`fromMarkdown`) and all network calls are external collaborators
and are not modelled; the document walker is modelled as a function on
the parsed root's child list.
-/

namespace DriveToNotion

/-- The annotation record of a rich-text span (`NotionRichText.annotations`).
Every span the converter constructs carries an explicit annotation record,
so the record is modelled as a required field. -/
structure Annotations where
  bold : Bool
  italic : Bool
  strikethrough : Bool
  underline : Bool
  code : Bool
  color : String
deriving DecidableEq, Repr

/-- The default annotation record the source writes out literally at each
span construction site: all flags false, color `"default"`. -/
def defaultAnnotations : Annotations :=
  { bold := false, italic := false, strikethrough := false,
    underline := false, code := false, color := "default" }

/-- A Notion rich-text span (`NotionRichText`): content string, optional
link URL (`text.link` is `{url} | null` in the source), annotations. -/
structure NotionRichText where
  content : String
  link : Option String
  annotations : Annotations
deriving DecidableEq, Repr

/-- mdast phrasing (inline) content, the kinds `phrasingToRichText` and
`getPhrasingText` discriminate on.  The four reference/image kinds and
inline `html` carry payloads in mdast, but the source never reads them,
so they are modelled as bare constructors. -/
inductive Phrasing where
  | text (value : String)
  | strong (children : List Phrasing)
  | emphasis (children : List Phrasing)
  | delete (children : List Phrasing)
  | inlineCode (value : String)
  | link (url : String) (children : List Phrasing)
  | br
  | image
  | imageReference
  | linkReference
  | footnoteReference
  | html
deriving Repr

mutual

/-- Source function `phrasingToRichText`: flattens a phrasing node list
into a flat span list; per-node contributions are concatenated in order. -/
def phrasingToRichText : List Phrasing → List NotionRichText
  | [] => []
  | n :: rest => phrasingNodeToRichText n ++ phrasingToRichText rest

/-- One node's contribution inside `phrasingToRichText`'s loop, one case
per `node.type` branch of the source; the trailing branches mirror the
source's "Skip image, imageReference, linkReference, footnoteReference,
html" comment. -/
def phrasingNodeToRichText : Phrasing → List NotionRichText
  | .text v => [⟨v, none, defaultAnnotations⟩]
  | .strong cs =>
      (phrasingToRichText cs).map fun r =>
        { r with annotations := { r.annotations with bold := true } }
  | .emphasis cs =>
      (phrasingToRichText cs).map fun r =>
        { r with annotations := { r.annotations with italic := true } }
  | .delete cs =>
      (phrasingToRichText cs).map fun r =>
        { r with annotations := { r.annotations with strikethrough := true } }
  | .inlineCode v => [⟨v, none, { defaultAnnotations with code := true }⟩]
  | .link url cs =>
      (phrasingToRichText cs).map fun r => { r with link := some url }
  | .br => [⟨"\n", none, defaultAnnotations⟩]
  | .image => []
  | .imageReference => []
  | .linkReference => []
  | .footnoteReference => []
  | .html => []

end

mutual

/-- Source function `getPhrasingText`: the plain-text extractor over a
phrasing list. -/
def getPhrasingText : List Phrasing → String
  | [] => ""
  | n :: rest => phrasingNodeText n ++ getPhrasingText rest

/-- One node's contribution inside `getPhrasingText`'s loop. -/
def phrasingNodeText : Phrasing → String
  | .text v => v
  | .strong cs => getPhrasingText cs
  | .emphasis cs => getPhrasingText cs
  | .delete cs => getPhrasingText cs
  | .link _ cs => getPhrasingText cs
  | .inlineCode v => v
  | .br => "\n"
  | .image => ""
  | .imageReference => ""
  | .linkReference => ""
  | .footnoteReference => ""
  | .html => ""

end

/-- The single-space span with default annotations that the source pushes
wherever a converted span list came out empty. -/
def spaceSpan : NotionRichText := ⟨" ", none, defaultAnnotations⟩

/-- The literal newline span the blockquote branch pushes after each
paragraph child. -/
def newlineSpan : NotionRichText := ⟨"\n", none, defaultAnnotations⟩

/-- Output block model (`NotionBlock`): tagged union over the nine block
kinds; every kind except `divider` carries a rich-text list, `code` also
carries a language string. -/
inductive NotionBlock where
  | paragraph (rich_text : List NotionRichText)
  | heading_1 (rich_text : List NotionRichText)
  | heading_2 (rich_text : List NotionRichText)
  | heading_3 (rich_text : List NotionRichText)
  | bulleted_list_item (rich_text : List NotionRichText)
  | numbered_list_item (rich_text : List NotionRichText)
  | quote (rich_text : List NotionRichText)
  | code (rich_text : List NotionRichText) (language : String)
  | divider
deriving DecidableEq, Repr

/-- The rich-text payload of a block: `none` exactly for `divider`. -/
def blockRichText : NotionBlock → Option (List NotionRichText)
  | .paragraph rt => some rt
  | .heading_1 rt => some rt
  | .heading_2 rt => some rt
  | .heading_3 rt => some rt
  | .bulleted_list_item rt => some rt
  | .numbered_list_item rt => some rt
  | .quote rt => some rt
  | .code rt _ => some rt
  | .divider => none

/-- mdast block-level content, the kinds `processBlock` and the document
walker discriminate on.  A list item is modelled by its child block list
(the source only reads `item.children`); a table by its rows, each row a
list of cells, each cell a phrasing list. -/
inductive MdBlock where
  | paragraph (children : List Phrasing)
  | heading (depth : Nat) (children : List Phrasing)
  | blockquote (children : List MdBlock)
  | code (value : String) (lang : Option String)
  | list (ordered : Bool) (items : List (List MdBlock))
  | thematicBreak
  | table (rows : List (List (List Phrasing)))
  | html (value : String)
  | definition
  | footnoteDefinition (children : List MdBlock)
deriving Repr

/-- Source function `listItemToRichText`, applied to the item's child
list: converts the first child if it is a paragraph, otherwise converts
the empty phrasing list (which yields no spans). -/
def listItemToRichText (item : List MdBlock) : List NotionRichText :=
  match item.head? with
  | some (.paragraph cs) => phrasingToRichText cs
  | _ => phrasingToRichText []

/-- The push-a-space-span-if-empty idiom repeated verbatim in the
paragraph, heading and list branches of `processBlock`. -/
def padEmpty (richText : List NotionRichText) : List NotionRichText :=
  if richText.isEmpty then [spaceSpan] else richText

/-- The splice step of the blockquote branch: from the recursively mapped
blocks of a non-paragraph child, take the first block and, only when that
block is a paragraph (the source tests `"paragraph" in first`), its
rich-text list. -/
def firstParagraphRichText (blocks : List NotionBlock) : List NotionRichText :=
  match blocks.head? with
  | some (.paragraph rt) => rt
  | _ => []

/-- The table branch's text: cells extracted with `getPhrasingText`,
joined with `" | "` inside a row, rows joined with `"\n"`. -/
def tableText (rows : List (List (List Phrasing))) : String :=
  String.intercalate "\n"
    (rows.map fun row => String.intercalate " | " (row.map getPhrasingText))

mutual

/-- Source function `processBlock`: dispatch over the block-level node
kind, one branch per `node.type` test; the final case mirrors the
source's "html, definition, footnoteDefinition - emit as empty paragraph"
fallback.  The unused `listOrdered` parameter of the source is dropped. -/
def processBlock : MdBlock → List NotionBlock
  | .paragraph cs => [.paragraph (padEmpty (phrasingToRichText cs))]
  | .heading depth cs =>
      let richText := padEmpty (phrasingToRichText cs)
      if depth = 1 then [.heading_1 richText]
      else if depth = 2 then [.heading_2 richText]
      else [.heading_3 richText]
  | .blockquote children =>
      let parts := quoteParts children
      [.quote (if 0 < parts.length then parts.dropLast else [spaceSpan])]
  | .code value lang =>
      [.code [⟨value, none, defaultAnnotations⟩] (lang.getD "plain text")]
  | .list ordered items =>
      items.map fun item =>
        let richText := padEmpty (listItemToRichText item)
        if ordered then .numbered_list_item richText
        else .bulleted_list_item richText
  | .thematicBreak => [.divider]
  | .table rows =>
      [.paragraph
        [⟨if tableText rows = "" then " " else tableText rows, none,
          defaultAnnotations⟩]]
  | .html _ => [.paragraph [spaceSpan]]
  | .definition => [.paragraph [spaceSpan]]
  | .footnoteDefinition _ => [.paragraph [spaceSpan]]

/-- The `richTextParts` accumulation loop of the blockquote branch: a
paragraph child contributes its spans followed by a newline span; any
other child is recursively mapped and contributes the rich text of its
first resulting block when that block is a paragraph, else nothing. -/
def quoteParts : List MdBlock → List NotionRichText
  | [] => []
  | .paragraph cs :: rest =>
      (phrasingToRichText cs ++ [newlineSpan]) ++ quoteParts rest
  | child :: rest => firstParagraphRichText (processBlock child) ++ quoteParts rest

end

/-- mdast root-level content: the walker meets both block-level and
phrasing-level node kinds at the document root. -/
inductive MdNode where
  | block (b : MdBlock)
  | phrasing (p : Phrasing)
deriving Repr

/-- One iteration of the walker loop in `markdownToNotionBlocks`: the two
recognized-kind branches call `processBlock`; the third branch (phrasing
kinds together with `html`, `definition`, `footnoteDefinition`) skips the
node with `continue`; node kinds matching no branch are likewise skipped. -/
def rootStep : MdNode → List NotionBlock
  | .block (.paragraph cs) => processBlock (.paragraph cs)
  | .block (.heading depth cs) => processBlock (.heading depth cs)
  | .block (.blockquote cs) => processBlock (.blockquote cs)
  | .block (.code v lang) => processBlock (.code v lang)
  | .block (.list ordered items) => processBlock (.list ordered items)
  | .block .thematicBreak => processBlock .thematicBreak
  | .block (.table rows) => processBlock (.table rows)
  | .block (.html _) => []
  | .block .definition => []
  | .block (.footnoteDefinition _) => []
  | .phrasing _ => []

/-- The walker loop of `markdownToNotionBlocks` over `root.children`
(the parse step `fromMarkdown` is an external library and is not
modelled): per-node results are appended in document order. -/
def rootToNotionBlocks (nodes : List MdNode) : List NotionBlock :=
  nodes.flatMap rootStep

/-- Constant `BLOCKS_PER_REQUEST` of `notion.ts`. -/
def BLOCKS_PER_REQUEST : Nat := 100

/-- The chunking loop of `appendBlocksInBatches` in `notion.ts`
(`for i = 0; i < blocks.length; i += BLOCKS_PER_REQUEST` with
`blocks.slice(i, i + BLOCKS_PER_REQUEST)`), modelled as the list of
batches the loop submits, in submission order; the network call itself
is an external boundary. -/
def appendBlocksInBatches (blocks : List NotionBlock) : List (List NotionBlock) :=
  if h : blocks = [] then []
  else
    blocks.take BLOCKS_PER_REQUEST ::
      appendBlocksInBatches (blocks.drop BLOCKS_PER_REQUEST)
termination_by blocks.length
decreasing_by
  simp only [List.length_drop, BLOCKS_PER_REQUEST]
  have : 0 < blocks.length := List.length_pos.mpr h
  omega

/-- Concatenation of the content strings of a span list (the quantity the
plain-text extractor is compared against). -/
def spansContent : List NotionRichText → String
  | [] => ""
  | r :: rs => r.content ++ spansContent rs

/-- Pointwise order on annotation records: every flag true on the left is
true on the right (the monotone-accumulation order of the spec). -/
def annLE (a b : Annotations) : Prop :=
  (a.bold = true → b.bold = true) ∧
  (a.italic = true → b.italic = true) ∧
  (a.strikethrough = true → b.strikethrough = true) ∧
  (a.underline = true → b.underline = true) ∧
  (a.code = true → b.code = true)

/-- Modelled from the amended C2 wording: the span list a single
blockquote child contributes — a paragraph child contributes its spans
plus a trailing newline span, any other child the rich text of the first
resulting block of its recursive mapping when that block is a paragraph,
else nothing. -/
def blockquoteChildSpec (child : MdBlock) : List NotionRichText :=
  match child with
  | .paragraph cs => phrasingToRichText cs ++ [newlineSpan]
  | c => firstParagraphRichText (processBlock c)

/-- Modelled from the amended C2 wording: the rich text of the quote
block — child contributions concatenated in order, then the last span
dropped, an empty accumulation being replaced by a single space span. -/
def blockquoteSpec (children : List MdBlock) : List NotionRichText :=
  let parts := children.flatMap blockquoteChildSpec
  if parts = [] then [spaceSpan] else parts.dropLast

/-! Helper lemmas -/

theorem padEmpty_length (l : List NotionRichText) : 1 ≤ (padEmpty l).length := by
  cases l <;> simp [padEmpty]

theorem phrasingToRichText_strong (cs : List Phrasing) :
    phrasingToRichText [.strong cs] =
      (phrasingToRichText cs).map
        (fun r => { r with annotations := { r.annotations with bold := true } }) := by
  simp [phrasingToRichText, phrasingNodeToRichText]

theorem phrasingToRichText_emphasis (cs : List Phrasing) :
    phrasingToRichText [.emphasis cs] =
      (phrasingToRichText cs).map
        (fun r => { r with annotations := { r.annotations with italic := true } }) := by
  simp [phrasingToRichText, phrasingNodeToRichText]

theorem phrasingToRichText_delete (cs : List Phrasing) :
    phrasingToRichText [.delete cs] =
      (phrasingToRichText cs).map
        (fun r => { r with annotations := { r.annotations with strikethrough := true } }) := by
  simp [phrasingToRichText, phrasingNodeToRichText]

theorem phrasingToRichText_link (u : String) (cs : List Phrasing) :
    phrasingToRichText [.link u cs] =
      (phrasingToRichText cs).map (fun r => { r with link := some u }) := by
  simp [phrasingToRichText, phrasingNodeToRichText]

/-! C1 -/

/-- C1 counterexample: a blockquote whose only child is an empty paragraph
is converted to a quote block — not a divider — whose span list is empty,
because the accumulated parts are the single newline span and the final
`slice(0, -1)` removes it; so not every non-divider block has a span list
of length at least 1. -/
theorem c1_counterexample :
    processBlock (MdBlock.blockquote [MdBlock.paragraph []]) = [NotionBlock.quote []] ∧
    NotionBlock.quote [] ≠ NotionBlock.divider ∧
    blockRichText (NotionBlock.quote []) = some [] ∧
    ¬ 1 ≤ ([] : List NotionRichText).length := by
  refine ⟨rfl, by decide, rfl, by decide⟩

/-- C1 amended: every non-divider output block other than a quote block
carries at least one span; the paragraph (and heading, list) mappings
replace an empty conversion by the single space span, and the blockquote
mapping does so only when the accumulated part list is empty. -/
theorem c1_nonempty_spans :
    (∀ root : List MdNode, ∀ b ∈ rootToNotionBlocks root, ∀ rt,
        blockRichText b = some rt →
        (∃ q, b = NotionBlock.quote q) ∨ 1 ≤ rt.length) ∧
    (∀ cs, phrasingToRichText cs = [] →
        processBlock (MdBlock.paragraph cs) = [.paragraph [spaceSpan]]) ∧
    (∀ cs, quoteParts cs = [] →
        processBlock (MdBlock.blockquote cs) = [.quote [spaceSpan]]) := by
  refine ⟨?_, ?_, ?_⟩
  · intro root b hb rt hrt
    rw [rootToNotionBlocks, List.mem_flatMap] at hb
    obtain ⟨n, -, hbn⟩ := hb
    match n with
    | .phrasing p => simp [rootStep] at hbn
    | .block (.paragraph cs) =>
        simp only [rootStep, processBlock, List.mem_singleton] at hbn
        subst hbn
        simp only [blockRichText, Option.some.injEq] at hrt
        exact Or.inr (hrt ▸ padEmpty_length _)
    | .block (.heading depth cs) =>
        simp only [rootStep, processBlock] at hbn
        split at hbn <;> [skip; split at hbn] <;>
          · simp only [List.mem_singleton] at hbn
            subst hbn
            simp only [blockRichText, Option.some.injEq] at hrt
            exact Or.inr (hrt ▸ padEmpty_length _)
    | .block (.blockquote cs) =>
        simp only [rootStep, processBlock, List.mem_singleton] at hbn
        subst hbn
        exact Or.inl ⟨_, rfl⟩
    | .block (.code v lang) =>
        simp only [rootStep, processBlock, List.mem_singleton] at hbn
        subst hbn
        simp only [blockRichText, Option.some.injEq] at hrt
        subst hrt
        simp
    | .block (.list ordered items) =>
        simp only [rootStep, processBlock, List.mem_map] at hbn
        obtain ⟨item, -, hitem⟩ := hbn
        cases ordered <;>
          · simp only [if_pos, if_neg, Bool.false_eq_true, not_false_iff] at hitem
            subst hitem
            simp only [blockRichText, Option.some.injEq] at hrt
            exact Or.inr (hrt ▸ padEmpty_length _)
    | .block .thematicBreak =>
        simp only [rootStep, processBlock, List.mem_singleton] at hbn
        subst hbn
        simp [blockRichText] at hrt
    | .block (.table rows) =>
        simp only [rootStep, processBlock, List.mem_singleton] at hbn
        subst hbn
        simp only [blockRichText, Option.some.injEq] at hrt
        subst hrt
        simp
    | .block (.html v) => simp [rootStep] at hbn
    | .block .definition => simp [rootStep] at hbn
    | .block (.footnoteDefinition cs) => simp [rootStep] at hbn
  · intro cs h
    simp [processBlock, h, padEmpty]
  · intro cs h
    simp [processBlock, h]

/-- C1 amended, witnessed at concrete inputs: a one-paragraph document and
an empty paragraph. -/
theorem c1_nonempty_spans_witness :
    ((∃ q, NotionBlock.paragraph [spaceSpan] = NotionBlock.quote q) ∨
      1 ≤ [spaceSpan].length) ∧
    processBlock (MdBlock.paragraph []) = [.paragraph [spaceSpan]] ∧
    processBlock (MdBlock.blockquote []) = [.quote [spaceSpan]] :=
  ⟨c1_nonempty_spans.1 [MdNode.block (MdBlock.paragraph [])] _ (by decide) _ (by decide),
   c1_nonempty_spans.2.1 [] rfl,
   c1_nonempty_spans.2.2 [] rfl⟩

/-! C2 -/

theorem quoteParts_eq_flatMap (cs : List MdBlock) :
    quoteParts cs = cs.flatMap blockquoteChildSpec := by
  induction cs with
  | nil => simp [quoteParts]
  | cons c rest ih => cases c <;> simp [quoteParts, blockquoteChildSpec, ih]

/-- C2 counterexample: the claim states that a non-paragraph blockquote
child is recursively mapped and the span list of its first resulting
block is spliced into the quote.  For a heading child the recursive
mapping yields a heading block, whose spans are NOT spliced (the source
splices only when the first block is a paragraph block), so the quote
falls back to the single space span instead of carrying the heading's
span. -/
theorem c2_counterexample :
    processBlock (MdBlock.heading 1 [.text "T"]) =
      [NotionBlock.heading_1 [⟨"T", none, defaultAnnotations⟩]] ∧
    processBlock (MdBlock.blockquote [MdBlock.heading 1 [.text "T"]]) =
      [NotionBlock.quote [spaceSpan]] ∧
    [spaceSpan] ≠ [(⟨"T", none, defaultAnnotations⟩ : NotionRichText)] := by
  refine ⟨rfl, rfl, by decide⟩

/-- C2 amended: every blockquote maps to exactly one quote block; a
paragraph child contributes its converted spans followed by one newline
span, a non-paragraph child is recursively mapped and contributes the
span list of its first resulting block only when that block is a
paragraph block (otherwise nothing); the final span of the accumulated
list is dropped — so two paragraphs "A" and "B" yield
spans(A) + one newline span + spans(B) — and an empty accumulation is
replaced by the single space span. -/
theorem c2_blockquote_flattening :
    (∀ children, processBlock (MdBlock.blockquote children) =
        [NotionBlock.quote (blockquoteSpec children)]) ∧
    (∀ A B, processBlock (MdBlock.blockquote [.paragraph A, .paragraph B]) =
        [NotionBlock.quote
          (phrasingToRichText A ++ newlineSpan :: phrasingToRichText B)]) := by
  constructor
  · intro children
    simp only [processBlock, blockquoteSpec, quoteParts_eq_flatMap]
    by_cases h : children.flatMap blockquoteChildSpec = []
    · simp [h]
    · rw [if_neg h, if_pos (List.length_pos.mpr h)]
  · intro A B
    have hq : quoteParts [.paragraph A, .paragraph B] =
        (phrasingToRichText A ++ newlineSpan :: phrasingToRichText B) ++
          [newlineSpan] := by
      simp [quoteParts]
    simp only [processBlock, hq]
    rw [if_pos (by simp), List.dropLast_concat]

/-! C3 -/

/-- C3 counterexample: an html node at document root is skipped entirely
by the walker (its dispatch lumps `html`, `definition`,
`footnoteDefinition` into the skip branch), so the document consisting of
one raw-markup node converts to the empty block list, not to one blank
paragraph placeholder. -/
theorem c3_counterexample :
    rootToNotionBlocks [MdNode.block (MdBlock.html "<b>x</b>")] =
      ([] : List NotionBlock) ∧
    ([] : List NotionBlock) ≠ [NotionBlock.paragraph [spaceSpan]] := by
  refine ⟨rfl, by decide⟩

/-- C3 amended: the Block Mapper maps every unsupported block-level node
(html, definition, footnoteDefinition) to exactly one paragraph block
containing the single space span, so such nodes reached through the
mapper (e.g. as blockquote children) get a position-preserving
placeholder; but at document root the walker skips these three kinds
entirely and they produce no output there. -/
theorem c3_unsupported_placeholder :
    (∀ v, processBlock (MdBlock.html v) = [NotionBlock.paragraph [spaceSpan]]) ∧
    processBlock MdBlock.definition = [NotionBlock.paragraph [spaceSpan]] ∧
    (∀ cs, processBlock (MdBlock.footnoteDefinition cs) =
        [NotionBlock.paragraph [spaceSpan]]) ∧
    (∀ v, rootStep (MdNode.block (MdBlock.html v)) = []) ∧
    rootStep (MdNode.block MdBlock.definition) = [] ∧
    (∀ cs, rootStep (MdNode.block (MdBlock.footnoteDefinition cs)) = []) :=
  ⟨fun _ => rfl, rfl, fun _ => rfl, fun _ => rfl, rfl, fun _ => rfl⟩

/-! C4 -/

theorem annLE_set_bold (a : Annotations) :
    annLE a { a with bold := true } := by
  refine ⟨fun _ => rfl, id, id, id, id⟩

theorem annLE_set_italic (a : Annotations) :
    annLE a { a with italic := true } := by
  refine ⟨id, fun _ => rfl, id, id, id⟩

theorem annLE_set_strikethrough (a : Annotations) :
    annLE a { a with strikethrough := true } := by
  refine ⟨id, id, fun _ => rfl, id, id⟩

/-- C4: annotation flags accumulate monotonically: wrapping in a second
strong wrapper is idempotent; each formatting wrapper only raises flags
(pointwise `annLE` between the child spans and the wrapped spans, in
order); a link wrapper keeps every annotation record unchanged and puts
its URL on every span; and bold inside a link yields spans that are bold
and carry the link URL. -/
theorem c4_annotation_monotonic (cs : List Phrasing) (u : String) :
    phrasingToRichText [.strong [.strong cs]] = phrasingToRichText [.strong cs] ∧
    List.Forall₂ (fun r rw => annLE r.annotations rw.annotations)
      (phrasingToRichText cs) (phrasingToRichText [.strong cs]) ∧
    List.Forall₂ (fun r rw => annLE r.annotations rw.annotations)
      (phrasingToRichText cs) (phrasingToRichText [.emphasis cs]) ∧
    List.Forall₂ (fun r rw => annLE r.annotations rw.annotations)
      (phrasingToRichText cs) (phrasingToRichText [.delete cs]) ∧
    List.Forall₂ (fun r rw => rw.annotations = r.annotations ∧ rw.link = some u)
      (phrasingToRichText cs) (phrasingToRichText [.link u cs]) ∧
    (∀ r ∈ phrasingToRichText [.link u [.strong cs]],
        r.annotations.bold = true ∧ r.link = some u) := by
  refine ⟨?_, ?_, ?_, ?_, ?_, ?_⟩
  · rw [phrasingToRichText_strong, phrasingToRichText_strong, List.map_map]
    exact List.map_congr_left fun r _ => rfl
  · rw [phrasingToRichText_strong, List.forall₂_map_right_iff]
    exact (List.forall₂_same).mpr fun r _ => annLE_set_bold _
  · rw [phrasingToRichText_emphasis, List.forall₂_map_right_iff]
    exact (List.forall₂_same).mpr fun r _ => annLE_set_italic _
  · rw [phrasingToRichText_delete, List.forall₂_map_right_iff]
    exact (List.forall₂_same).mpr fun r _ => annLE_set_strikethrough _
  · rw [phrasingToRichText_link, List.forall₂_map_right_iff]
    exact (List.forall₂_same).mpr fun r _ => ⟨rfl, rfl⟩
  · intro r hr
    rw [phrasingToRichText_link, phrasingToRichText_strong, List.map_map] at hr
    obtain ⟨s, -, rfl⟩ := List.mem_map.mp hr
    exact ⟨rfl, rfl⟩

/-- C4 witnessed at bold text inside a link: the concrete span produced
for link "u" around strong "x" is bold and carries the URL. -/
theorem c4_annotation_monotonic_witness :
    (⟨"x", some "u", { defaultAnnotations with bold := true }⟩
        : NotionRichText).annotations.bold = true ∧
    (⟨"x", some "u", { defaultAnnotations with bold := true }⟩
        : NotionRichText).link = some "u" :=
  (c4_annotation_monotonic [.text "x"] "u").2.2.2.2.2 _ (by decide)

/-! C5 -/

/-- C5: a list node yields exactly one output block per item, numbered
when the ordered flag is true and bulleted otherwise; an item's rich text
comes from its first child alone and only when that child is a paragraph
(everything else in the item contributes nothing), an empty result being
padded with the single space span. -/
theorem c5_list_items (ordered : Bool) (items : List (List MdBlock)) :
    processBlock (MdBlock.list ordered items) =
      items.map (fun item =>
        let rt := match item.head? with
          | some (.paragraph cs) => padEmpty (phrasingToRichText cs)
          | _ => [spaceSpan]
        if ordered then NotionBlock.numbered_list_item rt
        else NotionBlock.bulleted_list_item rt) ∧
    (processBlock (MdBlock.list ordered items)).length = items.length := by
  have hmap : processBlock (MdBlock.list ordered items) =
      items.map (fun item =>
        let rt := match item.head? with
          | some (.paragraph cs) => padEmpty (phrasingToRichText cs)
          | _ => [spaceSpan]
        if ordered then NotionBlock.numbered_list_item rt
        else NotionBlock.bulleted_list_item rt) := by
    simp only [processBlock]
    refine List.map_congr_left fun item _ => ?_
    have hrt : padEmpty (listItemToRichText item) =
        (match item.head? with
          | some (.paragraph cs) => padEmpty (phrasingToRichText cs)
          | _ => [spaceSpan]) := by
      rw [listItemToRichText]
      match item.head? with
      | none => rfl
      | some (.paragraph cs) => rfl
      | some (.heading d cs) => rfl
      | some (.blockquote cs) => rfl
      | some (.code v l) => rfl
      | some (.list o is) => rfl
      | some .thematicBreak => rfl
      | some (.table rs) => rfl
      | some (.html v) => rfl
      | some .definition => rfl
      | some (.footnoteDefinition cs) => rfl
    rw [hrt]
  exact ⟨hmap, by rw [hmap, List.length_map]⟩

/-! C6 -/

/-- C6: a table maps to exactly one paragraph block carrying a single
default-annotation span whose content joins each row's cell texts with
" | " and the rows with a newline; the empty string is replaced by a
single space.  The 2-by-2 instance with cells a, b / c, d gives
"a | b\nc | d". -/
theorem c6_table_flattening (rows : List (List (List Phrasing))) :
    processBlock (MdBlock.table rows) =
      [NotionBlock.paragraph
        [⟨if tableText rows = "" then " " else tableText rows, none,
          defaultAnnotations⟩]] ∧
    processBlock (MdBlock.table [[[.text "a"], [.text "b"]], [[.text "c"], [.text "d"]]]) =
      [NotionBlock.paragraph [⟨"a | b\nc | d", none, defaultAnnotations⟩]] ∧
    processBlock (MdBlock.table []) =
      [NotionBlock.paragraph [⟨" ", none, defaultAnnotations⟩]] :=
  ⟨rfl, rfl, rfl⟩

/-! C7 -/

/-- C7: a heading always yields exactly one block; depth 1 gives
heading_1, depth 2 gives heading_2, and every depth at least 3 gives
heading_3. -/
theorem c7_heading_clamp (depth : Nat) (cs : List Phrasing) :
    (depth = 1 →
      processBlock (MdBlock.heading depth cs) =
        [NotionBlock.heading_1 (padEmpty (phrasingToRichText cs))]) ∧
    (depth = 2 →
      processBlock (MdBlock.heading depth cs) =
        [NotionBlock.heading_2 (padEmpty (phrasingToRichText cs))]) ∧
    (3 ≤ depth →
      processBlock (MdBlock.heading depth cs) =
        [NotionBlock.heading_3 (padEmpty (phrasingToRichText cs))]) ∧
    (processBlock (MdBlock.heading depth cs)).length = 1 := by
  refine ⟨?_, ?_, ?_, ?_⟩
  · intro h; subst h; rfl
  · intro h; subst h; rfl
  · intro h
    simp only [processBlock]
    rw [if_neg (by omega), if_neg (by omega)]
  · simp only [processBlock]
    split <;> [simp; split <;> simp]

/-- C7 witnessed at depths 4, 5 and 6: all three clamp to heading_3. -/
theorem c7_heading_clamp_witness :
    processBlock (MdBlock.heading 4 []) = [NotionBlock.heading_3 [spaceSpan]] ∧
    processBlock (MdBlock.heading 5 []) = [NotionBlock.heading_3 [spaceSpan]] ∧
    processBlock (MdBlock.heading 6 []) = [NotionBlock.heading_3 [spaceSpan]] := by
  refine ⟨?_, ?_, ?_⟩
  · have h := (c7_heading_clamp 4 []).2.2.1 (by omega)
    simpa [padEmpty, phrasingToRichText] using h
  · have h := (c7_heading_clamp 5 []).2.2.1 (by omega)
    simpa [padEmpty, phrasingToRichText] using h
  · have h := (c7_heading_clamp 6 []).2.2.1 (by omega)
    simpa [padEmpty, phrasingToRichText] using h

/-! C8 -/

/-- C8: the converter is total — it is a plain function on the documented
grammar, so in this embedding totality is by construction — and every
fallback branch is defined: every output block is traceable to an input
node, phrasing kinds found at document root are skipped, the ignored
phrasing leaf kinds contribute no span, and an unsupported block-level
kind processed by the Block Mapper yields the blank placeholder
paragraph. -/
theorem c8_total_fallback :
    (∀ nodes : List MdNode, ∀ b ∈ rootToNotionBlocks nodes,
        ∃ n ∈ nodes, b ∈ rootStep n) ∧
    (∀ p : Phrasing, rootStep (MdNode.phrasing p) = []) ∧
    phrasingNodeToRichText .image = [] ∧
    phrasingNodeToRichText .imageReference = [] ∧
    phrasingNodeToRichText .linkReference = [] ∧
    phrasingNodeToRichText .footnoteReference = [] ∧
    phrasingNodeToRichText .html = [] ∧
    (∀ v, processBlock (MdBlock.html v) = [NotionBlock.paragraph [spaceSpan]]) := by
  refine ⟨?_, fun p => rfl, rfl, rfl, rfl, rfl, rfl, fun v => rfl⟩
  intro nodes b hb
  rw [rootToNotionBlocks, List.mem_flatMap] at hb
  exact hb

/-- C8 witnessed on a one-divider document: the divider block is
traceable to the thematic break node. -/
theorem c8_total_fallback_witness :
    ∃ n ∈ [MdNode.block MdBlock.thematicBreak], NotionBlock.divider ∈ rootStep n :=
  c8_total_fallback.1 [MdNode.block MdBlock.thematicBreak] NotionBlock.divider
    (by decide)

/-! C9 -/

theorem appendBlocksInBatches_le (blocks : List NotionBlock) :
    ∀ c ∈ appendBlocksInBatches blocks, c.length ≤ BLOCKS_PER_REQUEST := by
  induction blocks using appendBlocksInBatches.induct with
  | case1 => simp [appendBlocksInBatches]
  | case2 blocks h ih =>
      intro c hc
      rw [appendBlocksInBatches, dif_neg h] at hc
      rcases List.mem_cons.mp hc with hc | hc
      · subst hc
        exact List.length_take_le _ _
      · exact ih c hc

theorem appendBlocksInBatches_flatten (blocks : List NotionBlock) :
    (appendBlocksInBatches blocks).flatten = blocks := by
  induction blocks using appendBlocksInBatches.induct with
  | case1 => simp [appendBlocksInBatches]
  | case2 blocks h ih =>
      rw [appendBlocksInBatches, dif_neg h]
      simp [ih, List.take_append_drop]

theorem appendBlocksInBatches_250 :
    appendBlocksInBatches (List.replicate 250 NotionBlock.divider) =
      [List.replicate 100 NotionBlock.divider,
       List.replicate 100 NotionBlock.divider,
       List.replicate 50 NotionBlock.divider] := by
  rw [appendBlocksInBatches, dif_neg (by simp)]
  rw [show BLOCKS_PER_REQUEST = 100 from rfl, List.take_replicate, List.drop_replicate]
  norm_num
  rw [appendBlocksInBatches, dif_neg (by simp)]
  rw [show BLOCKS_PER_REQUEST = 100 from rfl, List.take_replicate, List.drop_replicate]
  norm_num
  rw [appendBlocksInBatches, dif_neg (by simp)]
  rw [show BLOCKS_PER_REQUEST = 100 from rfl, List.take_replicate, List.drop_replicate]
  norm_num
  rw [appendBlocksInBatches, dif_pos (by simp)]

/-- C9: the batch emitter cuts the output block list into consecutive
chunks of at most BLOCKS_PER_REQUEST = 100 blocks whose concatenation in
submission order is exactly the original list, and a 250-block document
is submitted as three batches of sizes 100, 100 and 50. -/
theorem c9_chunking (blocks : List NotionBlock) :
    (∀ c ∈ appendBlocksInBatches blocks, c.length ≤ BLOCKS_PER_REQUEST) ∧
    (appendBlocksInBatches blocks).flatten = blocks ∧
    (appendBlocksInBatches (List.replicate 250 NotionBlock.divider)).map
        List.length = [100, 100, 50] := by
  refine ⟨appendBlocksInBatches_le blocks, appendBlocksInBatches_flatten blocks, ?_⟩
  rw [appendBlocksInBatches_250]
  simp

/-- C9 witnessed on a one-block list: the single batch has at most 100
blocks and the batches flatten back to the list. -/
theorem c9_chunking_witness :
    [NotionBlock.divider].length ≤ BLOCKS_PER_REQUEST ∧
    (appendBlocksInBatches [NotionBlock.divider]).flatten = [NotionBlock.divider] :=
  ⟨(c9_chunking [NotionBlock.divider]).1 [NotionBlock.divider]
      (by rw [appendBlocksInBatches, dif_neg (by simp)]
          rw [appendBlocksInBatches, dif_pos (by simp [BLOCKS_PER_REQUEST])]
          simp [BLOCKS_PER_REQUEST]),
   (c9_chunking [NotionBlock.divider]).2.1⟩

/-! C10 -/

theorem spansContent_append (a b : List NotionRichText) :
    spansContent (a ++ b) = spansContent a ++ spansContent b := by
  induction a with
  | nil => simp [spansContent, String.empty_append]
  | cons r rs ih => simp [spansContent, ih, String.append_assoc]

theorem spansContent_map_eq (f : NotionRichText → NotionRichText)
    (hf : ∀ r, (f r).content = r.content) (xs : List NotionRichText) :
    spansContent (xs.map f) = spansContent xs := by
  induction xs with
  | nil => rfl
  | cons r rs ih => simp [spansContent, hf, ih]

mutual

theorem spansContent_phrasing_aux :
    ∀ ns, spansContent (phrasingToRichText ns) = getPhrasingText ns
  | [] => rfl
  | n :: rest => by
      simp only [phrasingToRichText, getPhrasingText]
      rw [spansContent_append, spansContent_node_aux n,
        spansContent_phrasing_aux rest]

theorem spansContent_node_aux :
    ∀ n, spansContent (phrasingNodeToRichText n) = phrasingNodeText n
  | .text v => by
      simp [phrasingNodeToRichText, phrasingNodeText, spansContent,
        String.append_empty]
  | .strong cs => by
      simp only [phrasingNodeToRichText, phrasingNodeText]
      exact (spansContent_map_eq
        (fun r => { r with annotations := { r.annotations with bold := true } })
        (fun r => rfl) _).trans (spansContent_phrasing_aux cs)
  | .emphasis cs => by
      simp only [phrasingNodeToRichText, phrasingNodeText]
      exact (spansContent_map_eq
        (fun r => { r with annotations := { r.annotations with italic := true } })
        (fun r => rfl) _).trans (spansContent_phrasing_aux cs)
  | .delete cs => by
      simp only [phrasingNodeToRichText, phrasingNodeText]
      exact (spansContent_map_eq
        (fun r =>
          { r with annotations := { r.annotations with strikethrough := true } })
        (fun r => rfl) _).trans (spansContent_phrasing_aux cs)
  | .inlineCode v => by
      simp [phrasingNodeToRichText, phrasingNodeText, spansContent,
        String.append_empty]
  | .link u cs => by
      simp only [phrasingNodeToRichText, phrasingNodeText]
      exact (spansContent_map_eq (fun r => { r with link := some u })
        (fun r => rfl) _).trans (spansContent_phrasing_aux cs)
  | .br => by
      simp [phrasingNodeToRichText, phrasingNodeText, spansContent,
        String.append_empty]
  | .image => rfl
  | .imageReference => rfl
  | .linkReference => rfl
  | .footnoteReference => rfl
  | .html => rfl

end

/-- C10: on every phrasing list, the concatenation of the content strings
of the spans the inline converter produces equals the string the
plain-text extractor returns — the two walks keep the same text in the
same order and drop the same leaf kinds. -/
theorem c10_content_agreement (nodes : List Phrasing) :
    spansContent (phrasingToRichText nodes) = getPhrasingText nodes :=
  spansContent_phrasing_aux nodes

end DriveToNotion
